import Mathlib

/-!
Shallow embedding of `ViewNudger/api.py` (screen-space nudging of a Maya
camera or object) and proofs checking the specification's claims.

Real-number model: Python floats become `ℝ`, Maya `MPoint`/`MVector`
become `V3` (the homogeneous `w` component is carried explicitly as a
`Fin 4 → ℝ` vector exactly where the source manipulates it), and
`MMatrix` becomes `Matrix (Fin 4) (Fin 4) ℝ` with the row-vector
convention `point * matrix` (Maya's convention, `Matrix.vecMul`).
Scene mutations (`cmds.move`, `cmds.rotate`, `cmds.undoInfo`) are
recorded as an effect trace; a Python exception escaping `nudge`
(the `None + float` TypeError) is modelled as `none`.
-/

noncomputable section

namespace ViewNudger

open Matrix

/-- World-space 3-vector / point, the model of Maya `MVector` and of a
cartesian `MPoint` (the source only ever builds points with `w = 1`
except inside `screenToWorld`, where the homogeneous vector is explicit). -/
@[ext]
structure V3 where
  x : ℝ
  y : ℝ
  z : ℝ

instance : Add V3 := ⟨fun a b => ⟨a.x + b.x, a.y + b.y, a.z + b.z⟩⟩

instance : Sub V3 := ⟨fun a b => ⟨a.x - b.x, a.y - b.y, a.z - b.z⟩⟩

instance : SMul ℝ V3 := ⟨fun t a => ⟨t * a.x, t * a.y, t * a.z⟩⟩

instance : Zero V3 := ⟨⟨0, 0, 0⟩⟩

@[simp] theorem V3.add_def (a b : V3) :
    a + b = ⟨a.x + b.x, a.y + b.y, a.z + b.z⟩ := rfl

@[simp] theorem V3.sub_def (a b : V3) :
    a - b = ⟨a.x - b.x, a.y - b.y, a.z - b.z⟩ := rfl

@[simp] theorem V3.smul_def (t : ℝ) (a : V3) :
    t • a = ⟨t * a.x, t * a.y, t * a.z⟩ := rfl

@[simp] theorem V3.zero_def : (0 : V3) = ⟨0, 0, 0⟩ := rfl

namespace V3

/-- Dot product (`MVector::operator*` between vectors). -/
def dot (a b : V3) : ℝ := a.x * b.x + a.y * b.y + a.z * b.z

/-- Euclidean length (`MVector::length`). -/
def length (a : V3) : ℝ := Real.sqrt (dot a a)

/-- In-place normalization (`MVector::normalize`): scales by the
reciprocal length; a zero vector is left unchanged. -/
def normalize (a : V3) : V3 := if length a = 0 then a else (1 / length a) • a

/-- Angle in radians between two vectors (`MVector::angle`). -/
def vangle (a b : V3) : ℝ := Real.arccos (dot a b / (length a * length b))

end V3

/-- Radians to degrees (`math.degrees`). -/
def degrees (r : ℝ) : ℝ := r * 180 / Real.pi

/-- Homogeneous coordinates of a cartesian point (`MPoint` with `w = 1`). -/
def hom (p : V3) : Fin 4 → ℝ := ![p.x, p.y, p.z, 1]

/-- The viewport state a call reads from Maya: the camera's eye point
(`MFnCamera::eyePoint`), its view direction (`MFnCamera::viewDirection`),
the model-view and projection matrices (`M3dView::modelViewMatrix`,
`M3dView::projectionMatrix`) and the viewport size in pixels
(`M3dView::portWidth` / `portHeight`). -/
structure ViewState where
  viewMatrix : Matrix (Fin 4) (Fin 4) ℝ
  projMatrix : Matrix (Fin 4) (Fin 4) ℝ
  width : ℝ
  height : ℝ
  eye : V3
  viewDir : V3

/-- Combined view-projection matrix, `viewMatrix * projectionMatrix`. -/
def vpm (vs : ViewState) : Matrix (Fin 4) (Fin 4) ℝ := vs.viewMatrix * vs.projMatrix

/-- Clip coordinates of a world point:
`point3D = transformPoint * (viewMatrix * projectionMatrix)`. -/
def clipCoords (vs : ViewState) (p : V3) : Fin 4 → ℝ := Matrix.vecMul (hom p) (vpm vs)

/-- `worldToScreen` from the source: depth test against the camera view
direction, then perspective divide and viewport mapping.  The Python
`(None, None)` sentinel is the `none` of the `Option`. -/
def worldToScreen (vs : ViewState) (cameraPoint transformPoint : V3) :
    Option (ℝ × ℝ) :=
  let z := V3.dot (transformPoint - cameraPoint) vs.viewDir
  if z < 0.01 then none
  else
    let c := clipCoords vs transformPoint
    some ((((c 0 / c 3) + 1) / 2) * vs.width, (((c 1 / c 3) + 1) / 2) * vs.height)

/-- The homogeneous point `screenToWorld` builds before the ray step:
`x,y` from the pixel mapped back to normalized device coordinates and
scaled by `w`, `z`/`w` read off row 3 of the view-projection matrix,
then multiplied by the inverse view-projection matrix. -/
def unproj (vs : ViewState) (point2D : ℝ × ℝ) : Fin 4 → ℝ :=
  let M := vpm vs
  let px := 2 * (point2D.1 / vs.width) - 1
  let py := 2 * (point2D.2 / vs.height) - 1
  Matrix.vecMul ![px * M 3 3, py * M 3 3, M 3 2, M 3 3] M⁻¹

/-- Cartesian part of `unproj` (the source subtracts `cameraPoint` from it
componentwise, `MPoint - MPoint → MVector` using `x`,`y`,`z`). -/
def unprojV3 (vs : ViewState) (point2D : ℝ × ℝ) : V3 :=
  ⟨unproj vs point2D 0, unproj vs point2D 1, unproj vs point2D 2⟩

/-- `screenToWorld` from the source: unproject the pixel, then project the
result onto the ray from `cameraPoint` at distance `setDistance`. -/
def screenToWorld (vs : ViewState) (point2D : ℝ × ℝ) (cameraPoint : V3)
    (setDistance : ℝ) : V3 :=
  (setDistance • V3.normalize (unprojV3 vs point2D - cameraPoint)) + cameraPoint

/-- Which node a scene mutation addresses (`transformName` vs
`fnCamera.fullPathName()`). -/
inductive Tgt where
  | obj : Tgt
  | cam : Tgt
deriving DecidableEq

/-- One external side effect issued by `nudge`: undo-chunk bookkeeping,
a relative `cmds.move`, or a relative object-space `cmds.rotate`. -/
inductive Effect where
  | openChunk : Effect
  | closeChunk : Effect
  | moveRel : Tgt → V3 → Effect
  | rotateRel : Tgt → Bool → V3 → Effect

/-- `xyz_x` inside `nudge`: `screenToWorld` at the pixel shifted by
`pixelAmount[0]` in x, with `setDistance` the target's camera distance. -/
def pointAtDx (vs : ViewState) (transformPoint : V3) (x y dx : ℝ) : V3 :=
  screenToWorld vs (x + dx, y) vs.eye (V3.length (transformPoint - vs.eye))

/-- `xyz_y` inside `nudge`: `screenToWorld` at the pixel shifted by
`pixelAmount[1]` in y. -/
def pointAtDy (vs : ViewState) (transformPoint : V3) (x y dy : ℝ) : V3 :=
  screenToWorld vs (x, y + dy) vs.eye (V3.length (transformPoint - vs.eye))

/-- The offset computed in `nudge`:
`offsetX = (xyz_x - transformPoint) + OpenMaya.MVector(transformPoint)`. -/
def offsetVec (q transformPoint : V3) : V3 := (q - transformPoint) + transformPoint

/-- `nudge` from the source, as the trace of effects it issues.  `none`
models the uncaught `TypeError` raised when `worldToScreen` returned the
`(None, None)` sentinel and `x + pixelAmount[0]` is evaluated: the call
crashes before the undo chunk opens and before any mutation. -/
def nudge (vs : ViewState) (transformPoint : V3) (pixelAmount : ℝ × ℝ)
    (moveObject rotateView : Bool) : Option (List Effect) :=
  let cameraPoint := vs.eye
  let startDirVec := V3.normalize (transformPoint - cameraPoint)
  match worldToScreen vs cameraPoint transformPoint with
  | none => none
  | some (x, y) =>
    let xyz_x := pointAtDx vs transformPoint x y pixelAmount.1
    let xyz_y := pointAtDy vs transformPoint x y pixelAmount.2
    let offsetX := offsetVec xyz_x transformPoint
    let offsetY := offsetVec xyz_y transformPoint
    some (Effect.openChunk ::
      ((if moveObject then
          [Effect.moveRel Tgt.obj offsetX, Effect.moveRel Tgt.obj offsetY]
        else
          [Effect.moveRel Tgt.cam offsetX, Effect.moveRel Tgt.cam offsetY] ++
          (if rotateView then
            [Effect.rotateRel Tgt.cam true
              ⟨-(degrees (V3.vangle startDirVec
                  (V3.normalize (xyz_y - cameraPoint)))),
                degrees (V3.vangle startDirVec
                  (V3.normalize (xyz_x - cameraPoint))), 0⟩]
          else [])) ++ [Effect.closeChunk]))

/-- A Python value passed as the `view` argument of `parseArgs`, as far
as the function's type dispatch can distinguish it: `None`, an actual
`OpenMayaUI.M3dView` instance, a `str`, or any other object. -/
inductive PyVal where
  | pyNone : PyVal
  | m3dview : PyVal
  | str : String → PyVal
  | other : PyVal
deriving DecidableEq

/-- Python truthiness of the `view` argument (`if not view:`); `None` and
the empty string are falsy, an `M3dView` instance and other objects are
truthy. -/
def truthy : PyVal → Bool
  | PyVal.pyNone => false
  | PyVal.m3dview => true
  | PyVal.str s => s ≠ ""
  | PyVal.other => true

/-- Whether the value is a Python `str` (`type(view) is str`). -/
def isStrVal : PyVal → Bool
  | PyVal.str _ => true
  | _ => false

/-- Outcome of a `parseArgs` call: one of its `RuntimeError`s, or the
call into `nudge` (recording whether the active view was used). -/
inductive PAResult where
  | errNoName : PAResult
  | errNotTransform : PAResult
  | errNotPanel : PAResult
  | errNotView : PAResult
  | runNudge : Bool → PAResult
deriving DecidableEq

/-- `parseArgs` from the source.  `nameNonEmpty` is the truthiness of
`transformName`; `exists_` / `isTf` are the results of `cmds.objExists`
and the `cmds.nodeType == "transform"` check; `panelOk` is whether
`getM3dViewFromModelPanel` succeeds for a string view.  The view branch
is the literal condition
`not type(view) is OpenMayaUI.M3dView and type(view) is str`, so an
actual `M3dView` instance falls into the `is not a view` error. -/
def parseArgs (nameNonEmpty exists_ isTf : Bool) (view : PyVal)
    (panelOk : Bool) : PAResult :=
  if ¬nameNonEmpty then PAResult.errNoName
  else if ¬(exists_ ∧ isTf) then PAResult.errNotTransform
  else if ¬truthy view then PAResult.runNudge true
  else if ¬(view = PyVal.m3dview) ∧ isStrVal view = true then
    (if panelOk then PAResult.runNudge false else PAResult.errNotPanel)
  else PAResult.errNotView

/-- Whether a `parseArgs` outcome reached the call into `nudge`. -/
def reachesNudge : PAResult → Bool
  | PAResult.runNudge _ => true
  | _ => false

/-- Net relative translation applied to one node by a trace: the sum of
the `moveRel` amounts addressed to it. -/
def netMove (t : Tgt) : List Effect → V3
  | [] => ⟨0, 0, 0⟩
  | Effect.moveRel t' v :: rest =>
      if t' = t then v + netMove t rest else netMove t rest
  | _ :: rest => netMove t rest

/-- Whether a trace mutates a node's transform (issues a move or rotate
addressed to it). -/
def mutates (tr : List Effect) (t : Tgt) : Prop :=
  ∃ e ∈ tr, (∃ v, e = Effect.moveRel t v) ∨ (∃ os v, e = Effect.rotateRel t os v)

/-! ## A concrete Maya view

Camera at `(0,0,10)` looking down `-z`, 90-degree symmetric frustum with
near plane `1` and far plane `3` (so the projection parameters are
`A = -2`, `B = -3`), viewport `1920 x 1080`. -/

/-- Model-view matrix of the concrete view (inverse of the camera's
world matrix, row-vector convention). -/
def V0 : Matrix (Fin 4) (Fin 4) ℝ :=
  !![1, 0, 0, 0; 0, 1, 0, 0; 0, 0, 1, 0; 0, 0, -10, 1]

/-- Projection matrix of the concrete view. -/
def P0 : Matrix (Fin 4) (Fin 4) ℝ :=
  !![1, 0, 0, 0; 0, 1, 0, 0; 0, 0, -2, -1; 0, 0, -3, 0]

/-- The concrete view state. -/
def vs0 : ViewState :=
  ⟨V0, P0, 1920, 1080, ⟨0, 0, 10⟩, ⟨0, 0, -1⟩⟩

/-- Modelled from the spec (section 4.1): transform `targetPoint` by
`viewMatrix * projectionMatrix` to homogeneous clip coordinates,
perspective-divide x and y by w, and map each normalized device
coordinate `n` from `[-1,1]` to pixels via `((n+1)/2) * dimension`,
width for x and height for y. -/
def specPixel (vs : ViewState) (targetPoint : V3) : ℝ × ℝ :=
  let c := Matrix.vecMul (hom targetPoint) (vs.viewMatrix * vs.projMatrix)
  (((c 0 / c 3 + 1) / 2) * vs.width, ((c 1 / c 3 + 1) / 2) * vs.height)

/-- Model-view matrix of a second concrete view: the same camera
position `(0,0,10)` but looking along `+z`, away from the world origin. -/
def V1 : Matrix (Fin 4) (Fin 4) ℝ :=
  !![1, 0, 0, 0; 0, 1, 0, 0; 0, 0, -1, 0; 0, 0, 10, 1]

/-- The away-facing concrete view state (projection as in `vs0`). -/
def vs1 : ViewState :=
  ⟨V1, P0, 1920, 1080, ⟨0, 0, 10⟩, ⟨0, 0, 1⟩⟩

/-! ## Basic vector algebra -/

theorem V3.dot_self_nonneg (a : V3) : 0 ≤ V3.dot a a := by
  have h : V3.dot a a = a.x ^ 2 + a.y ^ 2 + a.z ^ 2 := by unfold V3.dot; ring
  rw [h]
  positivity

theorem V3.length_nonneg (a : V3) : 0 ≤ a.length := Real.sqrt_nonneg _

theorem V3.length_eq_zero_iff (a : V3) : a.length = 0 ↔ a = 0 := by
  unfold V3.length
  rw [Real.sqrt_eq_zero (V3.dot_self_nonneg a)]
  unfold V3.dot
  constructor
  · intro h
    have hx : a.x * a.x = 0 :=
      le_antisymm (by nlinarith [mul_self_nonneg a.y, mul_self_nonneg a.z])
        (mul_self_nonneg a.x)
    have hy : a.y * a.y = 0 :=
      le_antisymm (by nlinarith [mul_self_nonneg a.x, mul_self_nonneg a.z])
        (mul_self_nonneg a.y)
    have hz : a.z * a.z = 0 :=
      le_antisymm (by nlinarith [mul_self_nonneg a.x, mul_self_nonneg a.y])
        (mul_self_nonneg a.z)
    simp [V3.ext_iff]
    exact ⟨mul_self_eq_zero.mp hx, mul_self_eq_zero.mp hy, mul_self_eq_zero.mp hz⟩
  · intro h
    subst h
    simp

theorem V3.length_pos_of_ne_zero {a : V3} (h : a ≠ 0) : 0 < a.length := by
  rcases lt_or_eq_of_le (V3.length_nonneg a) with hlt | heq
  · exact hlt
  · exact absurd ((V3.length_eq_zero_iff a).mp heq.symm) h

theorem V3.length_smul (t : ℝ) (a : V3) :
    (t • a).length = |t| * a.length := by
  unfold V3.length V3.dot
  have h : (t • a).x * (t • a).x + (t • a).y * (t • a).y + (t • a).z * (t • a).z
      = t ^ 2 * (a.x * a.x + a.y * a.y + a.z * a.z) := by
    simp only [V3.smul_def]
    ring
  rw [h, Real.sqrt_mul (sq_nonneg t), Real.sqrt_sq_eq_abs]

theorem V3.length_normalize {a : V3} (h : a ≠ 0) :
    a.normalize.length = 1 := by
  have hlp : 0 < a.length := V3.length_pos_of_ne_zero h
  have hl : a.length ≠ 0 := ne_of_gt hlp
  unfold V3.normalize
  rw [if_neg hl, V3.length_smul, abs_of_nonneg (le_of_lt (div_pos one_pos hlp))]
  field_simp

theorem V3.sub_eq_zero_iff (a b : V3) : a - b = 0 ↔ a = b := by
  simp [V3.ext_iff, sub_eq_zero]

theorem V3.smul_eq_zero_iff {t : ℝ} (ht : t ≠ 0) (a : V3) :
    t • a = 0 ↔ a = 0 := by
  simp [V3.ext_iff, mul_eq_zero, ht]

theorem V3.normalize_smul_pos {t : ℝ} (ht : 0 < t) (a : V3) :
    (t • a).normalize = a.normalize := by
  have ht' : t ≠ 0 := ne_of_gt ht
  by_cases h : a = 0
  · subst h
    have hz : t • (0 : V3) = 0 := by simp
    rw [hz]
  · have hlp : 0 < a.length := V3.length_pos_of_ne_zero h
    have hl : a.length ≠ 0 := ne_of_gt hlp
    have hta : t • a ≠ 0 := fun hz => h ((V3.smul_eq_zero_iff ht' a).mp hz)
    have hlt : (t • a).length ≠ 0 := ne_of_gt (V3.length_pos_of_ne_zero hta)
    unfold V3.normalize
    rw [if_neg hlt, if_neg hl, V3.length_smul, abs_of_nonneg (le_of_lt ht)]
    ext <;> simp only [V3.smul_def] <;> field_simp <;> ring

theorem V3.smul_length_normalize {a : V3} (h : a ≠ 0) :
    a.length • a.normalize = a := by
  have hl : a.length ≠ 0 := ne_of_gt (V3.length_pos_of_ne_zero h)
  unfold V3.normalize
  rw [if_neg hl]
  ext <;> simp only [V3.smul_def] <;> field_simp

theorem V3.dot_smul_smul (s t : ℝ) (a b : V3) :
    V3.dot (s • a) (t • b) = s * t * V3.dot a b := by
  simp [V3.dot]
  ring

theorem V3.vangle_normalize {a b : V3} (ha : a ≠ 0) (hb : b ≠ 0) :
    V3.vangle a.normalize b.normalize = V3.vangle a b := by
  have hla : a.length ≠ 0 := ne_of_gt (V3.length_pos_of_ne_zero ha)
  have hlb : b.length ≠ 0 := ne_of_gt (V3.length_pos_of_ne_zero hb)
  unfold V3.vangle
  rw [V3.length_normalize ha, V3.length_normalize hb]
  have hd : V3.dot a.normalize b.normalize = V3.dot a b / (a.length * b.length) := by
    unfold V3.normalize
    rw [if_neg hla, if_neg hlb, V3.dot_smul_smul]
    field_simp
  rw [hd]
  norm_num

/-- The distance step of `screenToWorld`: whenever the unprojected point
differs from `cameraPoint`, the returned point lies at distance
`|setDistance|` from `cameraPoint`. -/
theorem screenToWorld_dist (vs : ViewState) (point2D : ℝ × ℝ) (cameraPoint : V3)
    (setDistance : ℝ) (h : unprojV3 vs point2D ≠ cameraPoint) :
    V3.length (screenToWorld vs point2D cameraPoint setDistance - cameraPoint)
      = |setDistance| := by
  have hu : unprojV3 vs point2D - cameraPoint ≠ 0 := by
    rw [Ne, V3.sub_eq_zero_iff]
    exact h
  unfold screenToWorld
  have harr : (setDistance • V3.normalize (unprojV3 vs point2D - cameraPoint)
      + cameraPoint) - cameraPoint
      = setDistance • V3.normalize (unprojV3 vs point2D - cameraPoint) := by
    ext <;> simp
  rw [harr, V3.length_smul, V3.length_normalize hu, mul_one]

/-! ## Well-formed Maya views

`M3dView.modelViewMatrix` is the inverse of the camera's rigid world
matrix and `M3dView.projectionMatrix` is a standard perspective
projection (row-vector convention).  `WellFormedView` records exactly
the consequences the proofs use: the view matrix is affine, sends the
eye point to the camera-space origin and implements camera-space depth
as the negated dot product with the view direction; the projection
matrix has the standard perspective column/row structure with a nonzero
`(3,2)` entry. -/
structure WellFormedView (vs : ViewState) : Prop where
  affine0 : vs.viewMatrix 0 3 = 0
  affine1 : vs.viewMatrix 1 3 = 0
  affine2 : vs.viewMatrix 2 3 = 0
  affine3 : vs.viewMatrix 3 3 = 1
  zcol0 : vs.viewMatrix 0 2 = -vs.viewDir.x
  zcol1 : vs.viewMatrix 1 2 = -vs.viewDir.y
  zcol2 : vs.viewMatrix 2 2 = -vs.viewDir.z
  zcol3 : vs.viewMatrix 3 2 = V3.dot vs.eye vs.viewDir
  eyeZero : Matrix.vecMul (hom vs.eye) vs.viewMatrix = ![0, 0, 0, 1]
  p02 : vs.projMatrix 0 2 = 0
  p12 : vs.projMatrix 1 2 = 0
  p03 : vs.projMatrix 0 3 = 0
  p13 : vs.projMatrix 1 3 = 0
  p23 : vs.projMatrix 2 3 = -1
  p33 : vs.projMatrix 3 3 = 0
  p30 : vs.projMatrix 3 0 = 0
  p31 : vs.projMatrix 3 1 = 0
  p32ne : vs.projMatrix 3 2 ≠ 0

/-- Row-vector times matrix, written out over `Fin 4`. -/
theorem vecMul_apply (v : Fin 4 → ℝ) (M : Matrix (Fin 4) (Fin 4) ℝ) (i : Fin 4) :
    Matrix.vecMul v M i = v 0 * M 0 i + v 1 * M 1 i + v 2 * M 2 i + v 3 * M 3 i := by
  simp [Matrix.vecMul, Matrix.dotProduct, Fin.sum_univ_four]

theorem hom_zero : hom ⟨0, 0, 0⟩ = ![0, 0, 0, 1] := by
  unfold hom
  norm_num

@[simp] theorem hom_apply_zero (p : V3) : hom p 0 = p.x := rfl

@[simp] theorem hom_apply_one (p : V3) : hom p 1 = p.y := rfl

@[simp] theorem hom_apply_two (p : V3) : hom p 2 = p.z := rfl

@[simp] theorem hom_apply_three (p : V3) : hom p 3 = 1 := rfl

/-- Row 3 of the combined view-projection matrix is the clip coordinate
vector of the world origin. -/
theorem vpm_row3 (vs : ViewState) (i : Fin 4) :
    vpm vs 3 i = clipCoords vs ⟨0, 0, 0⟩ i := by
  rw [clipCoords, hom_zero, vecMul_apply]
  norm_num

variable {vs : ViewState}

/-- The projection matrix preserves nothing of `x`,`y` in the `w` output:
clip `w` is the negated camera-space `z`. -/
theorem proj_w (hwf : WellFormedView vs) (w : Fin 4 → ℝ) :
    Matrix.vecMul w vs.projMatrix 3 = -(w 2) := by
  rw [vecMul_apply, hwf.p03, hwf.p13, hwf.p23, hwf.p33]
  ring

/-- Clip `z` in terms of camera-space `z` and `w`. -/
theorem proj_z (hwf : WellFormedView vs) (w : Fin 4 → ℝ) :
    Matrix.vecMul w vs.projMatrix 2
      = vs.projMatrix 2 2 * w 2 + vs.projMatrix 3 2 * w 3 := by
  rw [vecMul_apply, hwf.p02, hwf.p12]
  ring

/-- The affine view matrix passes the homogeneous `w` through. -/
theorem view_w (hwf : WellFormedView vs) (v : Fin 4 → ℝ) :
    Matrix.vecMul v vs.viewMatrix 3 = v 3 := by
  rw [vecMul_apply, hwf.affine0, hwf.affine1, hwf.affine2, hwf.affine3]
  ring

/-- Camera-space `z` of a world point is its negated depth along the
view direction, offset so the eye sits at zero. -/
theorem view_z (hwf : WellFormedView vs) (p : V3) :
    Matrix.vecMul (hom p) vs.viewMatrix 2 = -(V3.dot (p - vs.eye) vs.viewDir) := by
  rw [vecMul_apply, hwf.zcol0, hwf.zcol1, hwf.zcol2, hwf.zcol3]
  simp only [hom_apply_zero, hom_apply_one, hom_apply_two, hom_apply_three,
    V3.sub_def]
  unfold V3.dot
  ring

/-- Clip `w` of a world point is its depth along the view direction. -/
theorem clip_w (hwf : WellFormedView vs) (p : V3) :
    clipCoords vs p 3 = V3.dot (p - vs.eye) vs.viewDir := by
  rw [clipCoords, vpm, ← Matrix.vecMul_vecMul, proj_w hwf, view_z hwf]
  ring

/-- Clip `z` of a world point, as a function of its clip `w`. -/
theorem clip_z (hwf : WellFormedView vs) (p : V3) :
    clipCoords vs p 2
      = vs.projMatrix 3 2 - vs.projMatrix 2 2 * clipCoords vs p 3 := by
  have hw : Matrix.vecMul (hom p) vs.viewMatrix 3 = 1 := by
    rw [view_w hwf, hom_apply_three]
  have hz := @view_z vs hwf p
  have hcw := @clip_w vs hwf p
  have h2 : clipCoords vs p 2
      = vs.projMatrix 2 2 * Matrix.vecMul (hom p) vs.viewMatrix 2
        + vs.projMatrix 3 2 * 1 := by
    rw [clipCoords, vpm, ← Matrix.vecMul_vecMul, proj_z hwf, hw]
  rw [h2, hz, hcw]
  ring

/-- Clip coordinates of the eye point: `(0, 0, B, 0)` with `B` the
`(3,2)` entry of the projection matrix. -/
theorem clip_eye (hwf : WellFormedView vs) :
    clipCoords vs vs.eye = ![0, 0, vs.projMatrix 3 2, 0] := by
  rw [clipCoords, vpm, ← Matrix.vecMul_vecMul, hwf.eyeZero]
  funext i
  rw [vecMul_apply]
  fin_cases i <;>
    simp [hwf.p30, hwf.p31, hwf.p33]

/-- Clip coordinates are affine along the ray from the eye through `p`. -/
theorem clip_ray (vs : ViewState) (p : V3) (t : ℝ) (i : Fin 4) :
    clipCoords vs (vs.eye + t • (p - vs.eye)) i
      = clipCoords vs vs.eye i + t * (clipCoords vs p i - clipCoords vs vs.eye i) := by
  simp only [clipCoords, vecMul_apply, hom_apply_zero, hom_apply_one,
    hom_apply_two, hom_apply_three, V3.add_def, V3.smul_def, V3.sub_def]
  ring

/-- The depth of the world origin along the view direction, read off the
`(3,3)` entry of the view-projection matrix. -/
theorem vpm_33_eq (hwf : WellFormedView vs) :
    vpm vs 3 3 = -(V3.dot vs.eye vs.viewDir) := by
  rw [vpm_row3, clip_w hwf]
  unfold V3.dot
  simp only [V3.sub_def]
  ring

/-- The `(3,2)` entry of the view-projection matrix in terms of the
projection parameters and the origin depth. -/
theorem vpm_32_eq (hwf : WellFormedView vs) :
    vpm vs 3 2 = vs.projMatrix 3 2 - vs.projMatrix 2 2 * vpm vs 3 3 := by
  rw [vpm_row3, vpm_row3, clip_z hwf]

/-- The homogeneous vector `screenToWorld` rebuilds from the exact pixel
of a world point `p` is the clip coordinate vector of the point on the
eye-to-`p` ray at parameter `t = M33 / clipw(p)`. -/
theorem clip_ray_eq (hwf : WellFormedView vs) (p : V3)
    (hcw : clipCoords vs p 3 ≠ 0) :
    clipCoords vs
        (vs.eye + (vpm vs 3 3 / clipCoords vs p 3) • (p - vs.eye))
      = ![(clipCoords vs p 0 / clipCoords vs p 3) * vpm vs 3 3,
          (clipCoords vs p 1 / clipCoords vs p 3) * vpm vs 3 3,
          vpm vs 3 2, vpm vs 3 3] := by
  have he := @clip_eye vs hwf
  have h0 : clipCoords vs
      (vs.eye + (vpm vs 3 3 / clipCoords vs p 3) • (p - vs.eye)) 0
      = (clipCoords vs p 0 / clipCoords vs p 3) * vpm vs 3 3 := by
    rw [clip_ray, he]
    simp only [Matrix.cons_val_zero]
    field_simp
    ring
  have h1 : clipCoords vs
      (vs.eye + (vpm vs 3 3 / clipCoords vs p 3) • (p - vs.eye)) 1
      = (clipCoords vs p 1 / clipCoords vs p 3) * vpm vs 3 3 := by
    rw [clip_ray, he]
    simp only [Matrix.cons_val_one, Matrix.head_cons]
    field_simp
    ring
  have h2 : clipCoords vs
      (vs.eye + (vpm vs 3 3 / clipCoords vs p 3) • (p - vs.eye)) 2
      = vpm vs 3 2 := by
    rw [clip_ray, he]
    simp only [Matrix.cons_val_two, Matrix.vecTail, Matrix.vecHead,
      Function.comp_apply, Fin.succ]
    rw [clip_z hwf p, vpm_32_eq hwf]
    field_simp
    ring
  have h3 : clipCoords vs
      (vs.eye + (vpm vs 3 3 / clipCoords vs p 3) • (p - vs.eye)) 3
      = vpm vs 3 3 := by
    rw [clip_ray, he]
    simp only [Matrix.cons_val_three, Matrix.vecTail, Matrix.vecHead,
      Function.comp_apply, Fin.succ]
    field_simp
  funext i
  fin_cases i
  · exact h0
  · exact h1
  · exact h2
  · exact h3

/-- Multiplying by the view-projection matrix and then by its inverse is
the identity on row vectors. -/
theorem vecMul_vpm_inv {vs : ViewState} (hdet : (vpm vs).det ≠ 0) (v : Fin 4 → ℝ) :
    Matrix.vecMul (Matrix.vecMul v (vpm vs)) (vpm vs)⁻¹ = v := by
  rw [Matrix.vecMul_vecMul,
    Matrix.mul_nonsing_inv _ (isUnit_iff_ne_zero.mpr hdet), Matrix.vecMul_one]

/-- Multiplying by the inverse and then by the view-projection matrix is
the identity on row vectors. -/
theorem vecMul_inv_vpm {vs : ViewState} (hdet : (vpm vs).det ≠ 0) (v : Fin 4 → ℝ) :
    Matrix.vecMul (Matrix.vecMul v (vpm vs)⁻¹) (vpm vs) = v := by
  rw [Matrix.vecMul_vecMul,
    Matrix.nonsing_inv_mul _ (isUnit_iff_ne_zero.mpr hdet), Matrix.vecMul_one]

/-- At the exact pixel of a world point `p`, the homogeneous point built
by `screenToWorld` unprojects to the point of the eye-to-`p` ray at
parameter `M33 / clipw(p)` — with homogeneous `w` exactly `1`. -/
theorem unproj_exact (hwf : WellFormedView vs) (hdet : (vpm vs).det ≠ 0)
    (hW : vs.width ≠ 0) (hH : vs.height ≠ 0) (p : V3)
    (hcw : clipCoords vs p 3 ≠ 0) :
    unproj vs
        ((((clipCoords vs p 0 / clipCoords vs p 3) + 1) / 2) * vs.width,
         (((clipCoords vs p 1 / clipCoords vs p 3) + 1) / 2) * vs.height)
      = hom (vs.eye + (vpm vs 3 3 / clipCoords vs p 3) • (p - vs.eye)) := by
  have hx : 2 * ((((((clipCoords vs p 0 / clipCoords vs p 3) + 1) / 2) * vs.width))
      / vs.width) - 1 = clipCoords vs p 0 / clipCoords vs p 3 := by
    field_simp
    ring
  have hy : 2 * ((((((clipCoords vs p 1 / clipCoords vs p 3) + 1) / 2) * vs.height))
      / vs.height) - 1 = clipCoords vs p 1 / clipCoords vs p 3 := by
    field_simp
    ring
  simp only [unproj]
  rw [hx, hy, ← clip_ray_eq hwf p hcw, clipCoords]
  exact vecMul_vpm_inv hdet _

/-- For a well-formed view whose eye plane does not pass through the
world origin (`M33 ≠ 0`), no pixel unprojects onto the eye point itself,
so the ray direction in `screenToWorld` is never the zero vector. -/
theorem unprojV3_ne_eye (hwf : WellFormedView vs) (hdet : (vpm vs).det ≠ 0)
    (how : vpm vs 3 3 ≠ 0) (p2 : ℝ × ℝ) : unprojV3 vs p2 ≠ vs.eye := by
  intro heq
  have h0 : unproj vs p2 0 = vs.eye.x := congrArg V3.x heq
  have h1 : unproj vs p2 1 = vs.eye.y := congrArg V3.y heq
  have h2 : unproj vs p2 2 = vs.eye.z := congrArg V3.z heq
  have hq : Matrix.vecMul (unproj vs p2) (vpm vs)
      = ![(2 * (p2.1 / vs.width) - 1) * vpm vs 3 3,
          (2 * (p2.2 / vs.height) - 1) * vpm vs 3 3,
          vpm vs 3 2, vpm vs 3 3] := by
    simp only [unproj]
    exact vecMul_inv_vpm hdet _
  have hc3 : Matrix.vecMul (unproj vs p2) (vpm vs) 3 = vpm vs 3 3 := by
    rw [hq]
    exact rfl
  have hc2 : Matrix.vecMul (unproj vs p2) (vpm vs) 2 = vpm vs 3 2 := by
    rw [hq]
    exact rfl
  have he := @clip_eye vs hwf
  have he3 : clipCoords vs vs.eye 3 = 0 := by
    rw [he]
    exact rfl
  have he2 : clipCoords vs vs.eye 2 = vs.projMatrix 3 2 := by
    rw [he]
    exact rfl
  rw [vecMul_apply, h0, h1, h2] at hc3 hc2
  rw [clipCoords, vecMul_apply, hom_apply_zero, hom_apply_one, hom_apply_two,
    hom_apply_three] at he3 he2
  have key3 : vpm vs 3 3 * (unproj vs p2 3 - 2) = 0 := by
    linear_combination hc3 - he3
  have hq3 : unproj vs p2 3 = 2 := by
    rcases mul_eq_zero.mp key3 with h | h
    · exact absurd h how
    · linarith
  rw [hq3] at hc2
  have keyB : vs.projMatrix 3 2 = 0 := by linear_combination hc2 - he2
  exact hwf.p32ne keyB

/-- Round-trip core: at the exact pixel of a point `p` in front of the
camera, `screenToWorld` with the camera distance of `p` returns `p`
itself, provided the world origin is strictly in front of the camera's
eye plane (`0 < M33`). -/
theorem screenToWorld_exact (hwf : WellFormedView vs) (hdet : (vpm vs).det ≠ 0)
    (hW : vs.width ≠ 0) (hH : vs.height ≠ 0) (horig : 0 < vpm vs 3 3) (p : V3)
    (hdepth : 0 < V3.dot (p - vs.eye) vs.viewDir) :
    screenToWorld vs
        ((((clipCoords vs p 0 / clipCoords vs p 3) + 1) / 2) * vs.width,
         (((clipCoords vs p 1 / clipCoords vs p 3) + 1) / 2) * vs.height)
        vs.eye (V3.length (p - vs.eye)) = p := by
  have hcw0 : 0 < clipCoords vs p 3 := by
    rw [clip_w hwf]
    exact hdepth
  have hcw : clipCoords vs p 3 ≠ 0 := ne_of_gt hcw0
  have hpe : p - vs.eye ≠ 0 := by
    intro hz
    rw [hz] at hdepth
    unfold V3.dot at hdepth
    simp at hdepth
  have ht : 0 < vpm vs 3 3 / clipCoords vs p 3 := div_pos horig hcw0
  have hu := unproj_exact hwf hdet hW hH p hcw
  have huv : unprojV3 vs
      ((((clipCoords vs p 0 / clipCoords vs p 3) + 1) / 2) * vs.width,
       (((clipCoords vs p 1 / clipCoords vs p 3) + 1) / 2) * vs.height)
      = vs.eye + (vpm vs 3 3 / clipCoords vs p 3) • (p - vs.eye) := by
    unfold unprojV3
    rw [hu]
    ext <;> simp
  unfold screenToWorld
  rw [huv]
  have hsub : (vs.eye + (vpm vs 3 3 / clipCoords vs p 3) • (p - vs.eye)) - vs.eye
      = (vpm vs 3 3 / clipCoords vs p 3) • (p - vs.eye) := by
    ext <;> simp
  rw [hsub, V3.normalize_smul_pos ht, V3.smul_length_normalize hpe]
  ext <;> simp

theorem vpm0 : vpm vs0 = !![1, 0, 0, 0; 0, 1, 0, 0; 0, 0, -2, -1; 0, 0, 17, 10] := by
  show V0 * P0 = _
  ext i j
  fin_cases i <;> fin_cases j <;>
    norm_num [V0, P0, Matrix.mul_apply, Fin.sum_univ_succ, Matrix.vecHead,
      Matrix.vecTail]

theorem vpm0_inv :
    (vpm vs0)⁻¹ = !![1, 0, 0, 0; 0, 1, 0, 0;
      0, 0, -10/3, -1/3; 0, 0, 17/3, 2/3] := by
  rw [vpm0]
  apply Matrix.inv_eq_right_inv
  ext i j
  fin_cases i <;> fin_cases j <;>
    norm_num [Matrix.mul_apply, Fin.sum_univ_succ, Matrix.one_apply,
      Matrix.vecHead, Matrix.vecTail, Fin.ext_iff]

theorem vpm0_det_ne : (vpm vs0).det ≠ 0 := by
  have hmul : vpm vs0 * !![1, 0, 0, 0; 0, 1, 0, 0;
      0, 0, (-10)/3, (-1)/3; 0, 0, 17/3, 2/3] = 1 := by
    rw [vpm0]
    ext i j
    fin_cases i <;> fin_cases j <;>
      norm_num [Matrix.mul_apply, Fin.sum_univ_succ, Matrix.one_apply,
        Matrix.vecHead, Matrix.vecTail, Fin.ext_iff]
  intro h0
  have hdet : (vpm vs0).det * (!![1, 0, 0, 0; 0, 1, 0, 0;
      0, 0, (-10)/3, (-1)/3; 0, 0, 17/3, 2/3] :
        Matrix (Fin 4) (Fin 4) ℝ).det = 1 := by
    rw [← Matrix.det_mul, hmul, Matrix.det_one]
  rw [h0, zero_mul] at hdet
  exact zero_ne_one hdet

theorem wf0 : WellFormedView vs0 := by
  have heye : Matrix.vecMul (hom vs0.eye) vs0.viewMatrix = ![0, 0, 0, 1] := by
    show Matrix.vecMul (hom ⟨0, 0, 10⟩) V0 = ![0, 0, 0, 1]
    funext i
    fin_cases i <;>
      norm_num [V0, hom, Matrix.vecMul, Matrix.dotProduct, Fin.sum_univ_succ,
        Matrix.vecHead, Matrix.vecTail]
  exact ⟨by norm_num [vs0, V0, Matrix.vecHead, Matrix.vecTail], by norm_num [vs0, V0, Matrix.vecHead, Matrix.vecTail], by norm_num [vs0, V0, Matrix.vecHead, Matrix.vecTail],
    by norm_num [vs0, V0, Matrix.vecHead, Matrix.vecTail], by norm_num [vs0, V0, Matrix.vecHead, Matrix.vecTail], by norm_num [vs0, V0, Matrix.vecHead, Matrix.vecTail],
    by norm_num [vs0, V0, Matrix.vecHead, Matrix.vecTail], by norm_num [vs0, V0, V3.dot, Matrix.vecHead, Matrix.vecTail], heye,
    by norm_num [vs0, P0, Matrix.vecHead, Matrix.vecTail], by norm_num [vs0, P0, Matrix.vecHead, Matrix.vecTail], by norm_num [vs0, P0, Matrix.vecHead, Matrix.vecTail],
    by norm_num [vs0, P0, Matrix.vecHead, Matrix.vecTail], by norm_num [vs0, P0, Matrix.vecHead, Matrix.vecTail], by norm_num [vs0, P0, Matrix.vecHead, Matrix.vecTail],
    by norm_num [vs0, P0, Matrix.vecHead, Matrix.vecTail], by norm_num [vs0, P0, Matrix.vecHead, Matrix.vecTail], by norm_num [vs0, P0, Matrix.vecHead, Matrix.vecTail]⟩

theorem sqrt_eval {a b : ℝ} (hb : 0 ≤ b) (h : a = b ^ 2) : Real.sqrt a = b := by
  rw [h, Real.sqrt_sq hb]

theorem clip0 : clipCoords vs0 ⟨0, 0, 6⟩ = ![0, 0, 5, 4] := by
  funext i
  rw [clipCoords, vpm0, vecMul_apply]
  fin_cases i <;>
    norm_num [hom, Matrix.vecHead, Matrix.vecTail]

theorem ws0 : worldToScreen vs0 vs0.eye ⟨0, 0, 6⟩ = some (960, 540) := by
  rw [worldToScreen]
  have hz : V3.dot ((⟨0, 0, 6⟩ : V3) - vs0.eye) vs0.viewDir = 4 := by
    norm_num [vs0, V3.dot]
  rw [hz, if_neg (by norm_num), clip0]
  norm_num [vs0]

theorem unproj0 : unproj vs0 (960, 540) = ![0, 0, 0, 1] := by
  funext i
  simp only [unproj]
  rw [vpm0_inv, vpm0, vecMul_apply]
  fin_cases i <;>
    norm_num [vs0, Matrix.vecHead, Matrix.vecTail]

theorem unprojV30 : unprojV3 vs0 (960, 540) = ⟨0, 0, 0⟩ := by
  unfold unprojV3
  rw [unproj0]
  norm_num

theorem len0 : V3.length ((⟨0, 0, 6⟩ : V3) - vs0.eye) = 4 := by
  unfold V3.length
  exact sqrt_eval (by norm_num) (by norm_num [vs0, V3.dot])

theorem norm0 : V3.normalize ((⟨0, 0, 0⟩ : V3) - vs0.eye) = ⟨0, 0, -1⟩ := by
  have hl : V3.length ((⟨0, 0, 0⟩ : V3) - vs0.eye) = 10 := by
    unfold V3.length
    exact sqrt_eval (by norm_num) (by norm_num [vs0, V3.dot])
  unfold V3.normalize
  rw [hl, if_neg (by norm_num)]
  ext <;> norm_num [vs0]

theorem s2w0 : screenToWorld vs0 (960, 540) vs0.eye 4 = ⟨0, 0, 6⟩ := by
  rw [screenToWorld, unprojV30, norm0]
  ext <;> norm_num [vs0]

theorem s2w0_neg : screenToWorld vs0 (960, 540) vs0.eye (-1) = ⟨0, 0, 11⟩ := by
  rw [screenToWorld, unprojV30, norm0]
  ext <;> norm_num [vs0]

theorem offset_cancel (q p : V3) : offsetVec q p = q := by
  unfold offsetVec
  ext <;> simp

theorem pointAtDx0 : pointAtDx vs0 ⟨0, 0, 6⟩ 960 540 0 = ⟨0, 0, 6⟩ := by
  unfold pointAtDx
  rw [len0, show ((960 : ℝ) + 0, (540 : ℝ)) = ((960 : ℝ), (540 : ℝ)) by norm_num]
  exact s2w0

theorem pointAtDy0 : pointAtDy vs0 ⟨0, 0, 6⟩ 960 540 0 = ⟨0, 0, 6⟩ := by
  unfold pointAtDy
  rw [len0, show ((960 : ℝ), (540 : ℝ) + 0) = ((960 : ℝ), (540 : ℝ)) by norm_num]
  exact s2w0

theorem nudge0_obj : nudge vs0 ⟨0, 0, 6⟩ (0, 0) true false
    = some [Effect.openChunk, Effect.moveRel Tgt.obj ⟨0, 0, 6⟩,
        Effect.moveRel Tgt.obj ⟨0, 0, 6⟩, Effect.closeChunk] := by
  rw [nudge, ws0]
  simp only [pointAtDx0, pointAtDy0, offset_cancel, if_true]
  rfl

theorem vpm1 : vpm vs1 = !![1, 0, 0, 0; 0, 1, 0, 0; 0, 0, 2, 1; 0, 0, -23, -10] := by
  show V1 * P0 = _
  ext i j
  fin_cases i <;> fin_cases j <;>
    norm_num [V1, P0, Matrix.mul_apply, Fin.sum_univ_succ, Matrix.vecHead,
      Matrix.vecTail]

theorem vpm1_inv :
    (vpm vs1)⁻¹ = !![1, 0, 0, 0; 0, 1, 0, 0;
      0, 0, -10/3, -1/3; 0, 0, 23/3, 2/3] := by
  rw [vpm1]
  apply Matrix.inv_eq_right_inv
  ext i j
  fin_cases i <;> fin_cases j <;>
    norm_num [Matrix.mul_apply, Fin.sum_univ_succ, Matrix.one_apply,
      Matrix.vecHead, Matrix.vecTail, Fin.ext_iff]

theorem wf1 : WellFormedView vs1 := by
  have heye : Matrix.vecMul (hom vs1.eye) vs1.viewMatrix = ![0, 0, 0, 1] := by
    show Matrix.vecMul (hom ⟨0, 0, 10⟩) V1 = ![0, 0, 0, 1]
    funext i
    fin_cases i <;>
      norm_num [V1, hom, Matrix.vecMul, Matrix.dotProduct, Fin.sum_univ_succ,
        Matrix.vecHead, Matrix.vecTail]
  exact ⟨by norm_num [vs1, V1, Matrix.vecHead, Matrix.vecTail],
    by norm_num [vs1, V1, Matrix.vecHead, Matrix.vecTail],
    by norm_num [vs1, V1, Matrix.vecHead, Matrix.vecTail],
    by norm_num [vs1, V1, Matrix.vecHead, Matrix.vecTail],
    by norm_num [vs1, V1, Matrix.vecHead, Matrix.vecTail],
    by norm_num [vs1, V1, Matrix.vecHead, Matrix.vecTail],
    by norm_num [vs1, V1, Matrix.vecHead, Matrix.vecTail],
    by norm_num [vs1, V1, V3.dot, Matrix.vecHead, Matrix.vecTail], heye,
    by norm_num [vs1, P0, Matrix.vecHead, Matrix.vecTail],
    by norm_num [vs1, P0, Matrix.vecHead, Matrix.vecTail],
    by norm_num [vs1, P0, Matrix.vecHead, Matrix.vecTail],
    by norm_num [vs1, P0, Matrix.vecHead, Matrix.vecTail],
    by norm_num [vs1, P0, Matrix.vecHead, Matrix.vecTail],
    by norm_num [vs1, P0, Matrix.vecHead, Matrix.vecTail],
    by norm_num [vs1, P0, Matrix.vecHead, Matrix.vecTail],
    by norm_num [vs1, P0, Matrix.vecHead, Matrix.vecTail],
    by norm_num [vs1, P0, Matrix.vecHead, Matrix.vecTail]⟩

theorem clip1 : clipCoords vs1 ⟨0, 0, 14⟩ = ![0, 0, 5, 4] := by
  funext i
  rw [clipCoords, vpm1, vecMul_apply]
  fin_cases i <;>
    norm_num [hom, Matrix.vecHead, Matrix.vecTail]

theorem ws1 : worldToScreen vs1 vs1.eye ⟨0, 0, 14⟩ = some (960, 540) := by
  rw [worldToScreen]
  have hz : V3.dot ((⟨0, 0, 14⟩ : V3) - vs1.eye) vs1.viewDir = 4 := by
    norm_num [vs1, V3.dot]
  rw [hz, if_neg (by norm_num), clip1]
  norm_num [vs1]

theorem unproj1 : unproj vs1 (960, 540) = ![0, 0, 0, 1] := by
  funext i
  simp only [unproj]
  rw [vpm1_inv, vpm1, vecMul_apply]
  fin_cases i <;>
    norm_num [vs1, Matrix.vecHead, Matrix.vecTail]

theorem unprojV31 : unprojV3 vs1 (960, 540) = ⟨0, 0, 0⟩ := by
  unfold unprojV3
  rw [unproj1]
  norm_num

theorem len1 : V3.length ((⟨0, 0, 14⟩ : V3) - vs1.eye) = 4 := by
  unfold V3.length
  exact sqrt_eval (by norm_num) (by norm_num [vs1, V3.dot])

theorem s2w1 : screenToWorld vs1 (960, 540) vs1.eye 4 = ⟨0, 0, 6⟩ := by
  rw [screenToWorld, unprojV31]
  have hl : V3.length ((⟨0, 0, 0⟩ : V3) - vs1.eye) = 10 := by
    unfold V3.length
    exact sqrt_eval (by norm_num) (by norm_num [vs1, V3.dot])
  have hn : V3.normalize ((⟨0, 0, 0⟩ : V3) - vs1.eye) = ⟨0, 0, -1⟩ := by
    unfold V3.normalize
    rw [hl, if_neg (by norm_num)]
    ext <;> norm_num [vs1]
  rw [hn]
  ext <;> norm_num [vs1]

/-! ## Claim theorems -/

/-- Claim C4: `worldToScreen` returns the `(None, None)` sentinel (here
`none`, a defined value and not a raised error) exactly when the depth
of the target point — the dot product of `targetPoint - cameraPoint`
with the camera view direction — is below `0.01`. -/
theorem C4_sentinel_iff (vs : ViewState) (cameraPoint transformPoint : V3) :
    worldToScreen vs cameraPoint transformPoint = none
      ↔ V3.dot (transformPoint - cameraPoint) vs.viewDir < 0.01 := by
  unfold worldToScreen
  by_cases h : V3.dot (transformPoint - cameraPoint) vs.viewDir < 0.01
  · rw [if_pos h]
    exact iff_of_true rfl h
  · rw [if_neg h]
    exact iff_of_false (by simp) h

/-- Claim C5: for a target of depth at least `0.01`, `worldToScreen`
returns exactly the pixel described by the spec — clip coordinates from
`viewMatrix * projectionMatrix`, perspective divide of x and y by w,
then `((n+1)/2) * dimension` with the viewport width for x and the
height for y (`specPixel`). -/
theorem C5_pixel_formula (vs : ViewState) (cameraPoint transformPoint : V3)
    (h : 0.01 ≤ V3.dot (transformPoint - cameraPoint) vs.viewDir) :
    worldToScreen vs cameraPoint transformPoint
      = some (specPixel vs transformPoint) := by
  unfold worldToScreen specPixel
  rw [if_neg (not_lt.mpr h)]
  rfl

/-- Witness for C5 at the concrete view `vs0` and target `(0,0,6)`. -/
theorem C5_pixel_formula_witness :
    worldToScreen vs0 vs0.eye ⟨0, 0, 6⟩ = some (specPixel vs0 ⟨0, 0, 6⟩) :=
  C5_pixel_formula vs0 vs0.eye ⟨0, 0, 6⟩ (by norm_num [vs0, V3.dot])

/-- Claim C8: the offset vectors of `nudge` satisfy
`offsetX = (pointAtDx - targetPoint) + targetPoint = pointAtDx` and
`offsetY = (pointAtDy - targetPoint) + targetPoint = pointAtDy`
componentwise — the subtraction and addition of `targetPoint` cancel. -/
theorem C8_offset_identity (vs : ViewState) (transformPoint : V3)
    (x y dx dy : ℝ) :
    offsetVec (pointAtDx vs transformPoint x y dx) transformPoint
        = pointAtDx vs transformPoint x y dx
      ∧ offsetVec (pointAtDy vs transformPoint x y dy) transformPoint
        = pointAtDy vs transformPoint x y dy :=
  ⟨offset_cancel _ _, offset_cancel _ _⟩

/-- Claim C10: `parseArgs` accepts a non-null `view` only when it is a
string naming a model panel; a non-null non-string view — including an
actual `M3dView` instance — never reaches `nudge`, and (with the
transform checks passing) raises the `is not a view` `RuntimeError`. -/
theorem C10_view_type_check (nameNonEmpty exists_ isTf panelOk : Bool)
    (view : PyVal) (hview : view = PyVal.m3dview ∨ view = PyVal.other) :
    reachesNudge (parseArgs nameNonEmpty exists_ isTf view panelOk) = false
      ∧ parseArgs true true true view panelOk = PAResult.errNotView := by
  rcases hview with h | h <;> subst h <;>
    exact ⟨by cases nameNonEmpty <;> cases exists_ <;> cases isTf <;>
        cases panelOk <;> rfl,
      by cases panelOk <;> rfl⟩

/-- Witness for C10 at an actual `M3dView` instance. -/
theorem C10_view_type_check_witness :
    reachesNudge (parseArgs true true true PyVal.m3dview true) = false
      ∧ parseArgs true true true PyVal.m3dview true = PAResult.errNotView :=
  C10_view_type_check true true true true PyVal.m3dview (Or.inl rfl)

/-- Claim C1, counterexample: for the well-formed view `vs1` (camera at
`(0,0,10)` looking along `+z`, so the world origin is behind the eye
plane) and the target `(0,0,14)` of depth `4 ≥ 0.01` at camera distance
`4`, `worldToScreen` followed by `screenToWorld` at distance `4` returns
`(0,0,6)`, the reflection of the target — not the target `(0,0,14)`. -/
theorem C1_roundtrip_counterexample :
    WellFormedView vs1
      ∧ 0.01 ≤ V3.dot ((⟨0, 0, 14⟩ : V3) - vs1.eye) vs1.viewDir
      ∧ V3.length ((⟨0, 0, 14⟩ : V3) - vs1.eye) = 4
      ∧ worldToScreen vs1 vs1.eye ⟨0, 0, 14⟩ = some (960, 540)
      ∧ screenToWorld vs1 (960, 540) vs1.eye 4 = ⟨0, 0, 6⟩
      ∧ ((⟨0, 0, 6⟩ : V3) ≠ ⟨0, 0, 14⟩) :=
  ⟨wf1, by norm_num [vs1, V3.dot], len1, ws1, s2w1,
    by simp only [Ne, V3.ext_iff]; norm_num⟩

/-- Claim C1, amended: for a well-formed perspective view with invertible
view-projection matrix, nonzero viewport sizes, and the world origin
strictly in front of the camera's eye plane (`eye . viewDir < 0`), every
point of depth at least `0.01` projects to a pixel from which
`screenToWorld` at the point's camera distance recovers the point
exactly. -/
theorem C1_roundtrip_amended (vs : ViewState) (p : V3)
    (hwf : WellFormedView vs) (hdet : (vpm vs).det ≠ 0)
    (hW : vs.width ≠ 0) (hH : vs.height ≠ 0)
    (horig : V3.dot vs.eye vs.viewDir < 0)
    (hdepth : 0.01 ≤ V3.dot (p - vs.eye) vs.viewDir) :
    ∃ x y : ℝ, worldToScreen vs vs.eye p = some (x, y)
      ∧ screenToWorld vs (x, y) vs.eye (V3.length (p - vs.eye)) = p := by
  have hM33 : 0 < vpm vs 3 3 := by
    rw [vpm_33_eq hwf]
    linarith
  have hdepth' : 0 < V3.dot (p - vs.eye) vs.viewDir :=
    lt_of_lt_of_le (by norm_num) hdepth
  refine ⟨(((clipCoords vs p 0 / clipCoords vs p 3) + 1) / 2) * vs.width,
    (((clipCoords vs p 1 / clipCoords vs p 3) + 1) / 2) * vs.height, ?_, ?_⟩
  · unfold worldToScreen
    rw [if_neg (not_lt.mpr hdepth)]
  · exact screenToWorld_exact hwf hdet hW hH hM33 p hdepth'

/-- Witness for the amended C1 at the origin-facing view `vs0` and the
target `(0,0,6)`. -/
theorem C1_roundtrip_amended_witness :
    ∃ x y : ℝ, worldToScreen vs0 vs0.eye ⟨0, 0, 6⟩ = some (x, y)
      ∧ screenToWorld vs0 (x, y) vs0.eye
          (V3.length ((⟨0, 0, 6⟩ : V3) - vs0.eye)) = ⟨0, 0, 6⟩ :=
  C1_roundtrip_amended vs0 ⟨0, 0, 6⟩ wf0 vpm0_det_ne
    (by norm_num [vs0]) (by norm_num [vs0])
    (by norm_num [vs0, V3.dot]) (by norm_num [vs0, V3.dot])

/-- Claim C2, counterexample: with `setDistance = -1` the point returned
by `screenToWorld` lies at distance `1` from `cameraPoint`, not `-1`, so
the returned point does not lie exactly `setDistance` from the camera
for every input. -/
theorem C2_distance_counterexample :
    screenToWorld vs0 (960, 540) vs0.eye (-1) = ⟨0, 0, 11⟩
      ∧ V3.length ((⟨0, 0, 11⟩ : V3) - vs0.eye) = 1
      ∧ (1 : ℝ) ≠ -1 :=
  ⟨s2w0_neg,
    by unfold V3.length; exact sqrt_eval (by norm_num) (by norm_num [vs0, V3.dot]),
    by norm_num⟩

/-- Claim C2, amended: the point returned by `screenToWorld` lies exactly
`setDistance` from `cameraPoint` whenever `setDistance` is nonnegative
and the unprojected pixel point differs from `cameraPoint`; for a
well-formed perspective view whose eye plane misses the world origin
(`eye . viewDir ≠ 0`) the latter holds at `cameraPoint = eye` for every
pixel, so in particular `nudge`'s intermediate points `pointAtDx` and
`pointAtDy` are exactly `pointDist` (the target's camera distance) from
`cameraPoint`. -/
theorem C2_distance_amended (vs : ViewState)
    (hwf : WellFormedView vs) (hdet : (vpm vs).det ≠ 0)
    (how : V3.dot vs.eye vs.viewDir ≠ 0) :
    (∀ (point2D : ℝ × ℝ) (cameraPoint : V3) (d : ℝ),
        unprojV3 vs point2D ≠ cameraPoint → 0 ≤ d →
        V3.length (screenToWorld vs point2D cameraPoint d - cameraPoint) = d)
      ∧ (∀ (point2D : ℝ × ℝ) (d : ℝ), 0 ≤ d →
          V3.length (screenToWorld vs point2D vs.eye d - vs.eye) = d)
      ∧ (∀ (transformPoint : V3) (x y dx : ℝ),
          V3.length (pointAtDx vs transformPoint x y dx - vs.eye)
            = V3.length (transformPoint - vs.eye))
      ∧ (∀ (transformPoint : V3) (x y dy : ℝ),
          V3.length (pointAtDy vs transformPoint x y dy - vs.eye)
            = V3.length (transformPoint - vs.eye)) := by
  have hgen : ∀ (point2D : ℝ × ℝ) (cameraPoint : V3) (d : ℝ),
      unprojV3 vs point2D ≠ cameraPoint → 0 ≤ d →
      V3.length (screenToWorld vs point2D cameraPoint d - cameraPoint) = d := by
    intro p2 cp d hne hd
    rw [screenToWorld_dist vs p2 cp d hne, abs_of_nonneg hd]
  have hM33 : vpm vs 3 3 ≠ 0 := by
    rw [vpm_33_eq hwf]
    exact neg_ne_zero.mpr how
  have heye : ∀ (point2D : ℝ × ℝ) (d : ℝ), 0 ≤ d →
      V3.length (screenToWorld vs point2D vs.eye d - vs.eye) = d := fun p2 d hd =>
    hgen p2 vs.eye d (unprojV3_ne_eye hwf hdet hM33 p2) hd
  exact ⟨hgen, heye,
    fun tp x y dx => heye (x + dx, y) _ (V3.length_nonneg _),
    fun tp x y dy => heye (x, y + dy) _ (V3.length_nonneg _)⟩

/-- Witness for the amended C2: at `vs0`, a shifted pixel unprojects to a
point exactly the target's camera distance from the eye. -/
theorem C2_distance_amended_witness :
    V3.length (pointAtDx vs0 ⟨0, 0, 6⟩ 960 540 5 - vs0.eye)
      = V3.length ((⟨0, 0, 6⟩ : V3) - vs0.eye) :=
  (C2_distance_amended vs0 wf0 vpm0_det_ne
    (by norm_num [vs0, V3.dot])).2.2.1 ⟨0, 0, 6⟩ 960 540 5

/-- Claim C3: zero-offset `nudge` is not idempotent on the code.  At the
well-formed view `vs0` with target `(0,0,6)` and pixel offset `(0,0)`,
`nudge` issues two relative moves by the absolute point `(0,0,6)` each,
for a net translation of `(0,0,12) ≠ 0`: the code feeds the absolute
destination (`offsetX = xyz_x`) to a relative `cmds.move`. -/
theorem C3_zero_offset_eval :
    nudge vs0 ⟨0, 0, 6⟩ (0, 0) true false
        = some [Effect.openChunk, Effect.moveRel Tgt.obj ⟨0, 0, 6⟩,
            Effect.moveRel Tgt.obj ⟨0, 0, 6⟩, Effect.closeChunk]
      ∧ netMove Tgt.obj [Effect.openChunk, Effect.moveRel Tgt.obj ⟨0, 0, 6⟩,
            Effect.moveRel Tgt.obj ⟨0, 0, 6⟩, Effect.closeChunk] = ⟨0, 0, 12⟩
      ∧ ((⟨0, 0, 12⟩ : V3) ≠ 0) := by
  refine ⟨nudge0_obj, ?_, ?_⟩
  · norm_num [netMove, V3.ext_iff]
  · simp only [Ne, V3.ext_iff, V3.zero_def]
    norm_num

/-- Claim C6: with a target strictly behind the camera (depth `-4 < 0`)
the model of `nudge` returns `none`: the Python code crashes with a
`TypeError` on `None + pixelAmount[0]` before opening the undo chunk, so
no mutation is issued but no `ProjectionFailure` result is returned
either. -/
theorem C6_behind_camera_eval :
    V3.dot ((⟨0, 0, 14⟩ : V3) - vs0.eye) vs0.viewDir = -4
      ∧ nudge vs0 ⟨0, 0, 14⟩ (10, 10) false false = none := by
  constructor
  · norm_num [vs0, V3.dot]
  · have hws : worldToScreen vs0 vs0.eye ⟨0, 0, 14⟩ = none := by
      rw [worldToScreen, if_pos (by norm_num [vs0, V3.dot])]
    rw [nudge, hws]

/-- Claim C7: whenever `nudge` completes with a trace, the trace mutates
the object's transform exactly when `moveObject` is true and the
camera's transform exactly when `moveObject` is false — exactly one
mutation path, never both. -/
theorem C7_mutual_exclusivity (vs : ViewState) (transformPoint : V3)
    (pixelAmount : ℝ × ℝ) (moveObject rotateView : Bool) (tr : List Effect)
    (h : nudge vs transformPoint pixelAmount moveObject rotateView = some tr) :
    (mutates tr Tgt.obj ↔ moveObject = true)
      ∧ (mutates tr Tgt.cam ↔ moveObject = false) := by
  simp only [nudge] at h
  cases hws : worldToScreen vs vs.eye transformPoint with
  | none =>
    rw [hws] at h
    exact absurd h (by simp)
  | some xy =>
    obtain ⟨x, y⟩ := xy
    rw [hws] at h
    simp only [Option.some.injEq] at h
    subst h
    cases moveObject <;> cases rotateView <;>
      constructor <;> simp [mutates]

/-- Witness for C7 on the concrete object-mode trace of `vs0`. -/
theorem C7_mutual_exclusivity_witness :
    (mutates [Effect.openChunk, Effect.moveRel Tgt.obj ⟨0, 0, 6⟩,
        Effect.moveRel Tgt.obj ⟨0, 0, 6⟩, Effect.closeChunk] Tgt.obj
      ↔ true = true)
      ∧ (mutates [Effect.openChunk, Effect.moveRel Tgt.obj ⟨0, 0, 6⟩,
          Effect.moveRel Tgt.obj ⟨0, 0, 6⟩, Effect.closeChunk] Tgt.cam
        ↔ true = false) :=
  C7_mutual_exclusivity vs0 ⟨0, 0, 6⟩ (0, 0) true false _ nudge0_obj

/-- Claim C9: in camera mode with `rotateView` (and `moveObject` false),
`nudge` issues exactly one rotation — relative, in the camera's object
space, by the Euler triple `(angleY, angleX, 0)`, where `angleX` is the
(nonnegative) angle between the initial camera-to-target direction and
the camera-to-`pointAtDx` direction, and `angleY` is the negated angle
between the initial direction and the camera-to-`pointAtDy` direction. -/
theorem C9_rotation_sign (vs : ViewState) (transformPoint : V3)
    (pixelAmount : ℝ × ℝ) (x y : ℝ)
    (hws : worldToScreen vs vs.eye transformPoint = some (x, y))
    (hp : transformPoint - vs.eye ≠ 0)
    (hx : pointAtDx vs transformPoint x y pixelAmount.1 - vs.eye ≠ 0)
    (hy : pointAtDy vs transformPoint x y pixelAmount.2 - vs.eye ≠ 0) :
    nudge vs transformPoint pixelAmount false true
      = some [Effect.openChunk,
          Effect.moveRel Tgt.cam
            (offsetVec (pointAtDx vs transformPoint x y pixelAmount.1)
              transformPoint),
          Effect.moveRel Tgt.cam
            (offsetVec (pointAtDy vs transformPoint x y pixelAmount.2)
              transformPoint),
          Effect.rotateRel Tgt.cam true
            ⟨-(degrees (V3.vangle (transformPoint - vs.eye)
                (pointAtDy vs transformPoint x y pixelAmount.2 - vs.eye))),
              degrees (V3.vangle (transformPoint - vs.eye)
                (pointAtDx vs transformPoint x y pixelAmount.1 - vs.eye)),
              0⟩,
          Effect.closeChunk]
      ∧ 0 ≤ V3.vangle (transformPoint - vs.eye)
          (pointAtDx vs transformPoint x y pixelAmount.1 - vs.eye)
      ∧ 0 ≤ V3.vangle (transformPoint - vs.eye)
          (pointAtDy vs transformPoint x y pixelAmount.2 - vs.eye) := by
  refine ⟨?_, Real.arccos_nonneg _, Real.arccos_nonneg _⟩
  have h1 := V3.vangle_normalize hp hx
  have h2 := V3.vangle_normalize hp hy
  simp only [V3.sub_def] at h1 h2
  simp only [nudge]
  rw [hws]
  simp [h1, h2]

/-- Witness for C9 at `vs0`, target `(0,0,6)`, pixel offset `(0,0)`. -/
theorem C9_rotation_sign_witness :
    nudge vs0 ⟨0, 0, 6⟩ (0, 0) false true
      = some [Effect.openChunk,
          Effect.moveRel Tgt.cam
            (offsetVec (pointAtDx vs0 ⟨0, 0, 6⟩ 960 540 0) ⟨0, 0, 6⟩),
          Effect.moveRel Tgt.cam
            (offsetVec (pointAtDy vs0 ⟨0, 0, 6⟩ 960 540 0) ⟨0, 0, 6⟩),
          Effect.rotateRel Tgt.cam true
            ⟨-(degrees (V3.vangle ((⟨0, 0, 6⟩ : V3) - vs0.eye)
                (pointAtDy vs0 ⟨0, 0, 6⟩ 960 540 0 - vs0.eye))),
              degrees (V3.vangle ((⟨0, 0, 6⟩ : V3) - vs0.eye)
                (pointAtDx vs0 ⟨0, 0, 6⟩ 960 540 0 - vs0.eye)), 0⟩,
          Effect.closeChunk]
      ∧ 0 ≤ V3.vangle ((⟨0, 0, 6⟩ : V3) - vs0.eye)
          (pointAtDx vs0 ⟨0, 0, 6⟩ 960 540 0 - vs0.eye)
      ∧ 0 ≤ V3.vangle ((⟨0, 0, 6⟩ : V3) - vs0.eye)
          (pointAtDy vs0 ⟨0, 0, 6⟩ 960 540 0 - vs0.eye) :=
  C9_rotation_sign vs0 ⟨0, 0, 6⟩ (0, 0) 960 540 ws0
    (by simp [V3.ext_iff, vs0]
        norm_num)
    (by rw [show ((0 : ℝ), (0 : ℝ)).1 = (0 : ℝ) from rfl, pointAtDx0]
        simp [V3.ext_iff, vs0]
        norm_num)
    (by rw [show ((0 : ℝ), (0 : ℝ)).2 = (0 : ℝ) from rfl, pointAtDy0]
        simp [V3.ext_iff, vs0]
        norm_num)

end ViewNudger
